import Mathlib

/-!
Verification of the audio-fingerprinting pipeline (backend of the
Audio-fringerprinting repository) against its natural-language
specification.

The JavaScript services are shallowly embedded as Lean functions:
* `VideoDownloader.calculateSegmentPositions` — the segment planner of
  `backend/src/services/videoDownloader.js`,
* `MusicIdentifier` — recognition-call result construction, batching and
  deduplication of `backend/src/services/musicIdentifier.js`,
* `AudioExtractor.splitSegmentCount` — the window count computed by
  `splitAudioSegments` of `backend/src/services/audioExtractor.js`,
* `DownloadRoute.downloadEndpoint` — the `GET /api/download/:filename`
  handler of `backend/src/routes` (the router in `videoProcessor.js`'s file),
* `Pipeline.processVideoLegacy` / `Pipeline.processVideoOpt` — the two
  `processVideo` pipeline variants (the legacy one in
  `backend/src/services/videoProcessor.js` and the optimized one in the
  unnamed source part), modelled as pure functions over an oracle that
  fixes the outcomes of all external collaborator calls.

Machine arithmetic: the JavaScript code computes positions with `Math.floor`
and `Math.round` on non-negative numbers; these are modelled as natural
number division and `jsRound` (round half up).  Fractional spread positions
(0.25, 0.5, 0.85) are modelled by exact rational floors `D * num / den`;
IEEE-754 double rounding can in principle differ from the exact rational
floor on `0.85 * D`, but no theorem below depends on the exact value of a
`0.85` position.
-/

/-- Model of `Math.round (num / den)` on non-negative operands: round half away
from zero, which for non-negative arguments is `⌊num/den + 1/2⌋`. -/
def jsRound (num den : Nat) : Nat := (2 * num + den) / (2 * den)

/-- JavaScript `String.prototype.toLowerCase` (ASCII), modelled as
per-character lowering over the string's characters. -/
def lowerStr (s : String) : String := ⟨s.data.map Char.toLower⟩

/-- JavaScript `String.prototype.includes` for a single character. -/
def strContains (s : String) (c : Char) : Bool := s.data.contains c

/-- JavaScript `String.prototype.startsWith`: `pre` is a prefix of `s`. -/
def strStarts (s pre : String) : Bool := pre.data.isPrefixOf s.data

namespace VideoDownloader

/-- Default of `SEGMENT_DURATION` in `videoDownloader.js`
(`parseInt(process.env.SEGMENT_DURATION) || 15`). -/
def SEGMENT_DURATION : Nat := 15

/-- Default of `NUM_SEGMENTS` in `videoDownloader.js`
(`parseInt(process.env.NUM_SEGMENTS) || 6`). -/
def NUM_SEGMENTS : Nat := 6

/-- A planned segment window `{start, end}` (seconds). -/
structure Seg where
  start : Nat
  stop : Nat
  deriving DecidableEq, Repr

/-- The `added.has(key)` test of `calculateSegmentPositions`: the key is the
string `` `${start}-${end}` ``, and the map from `(start, end)` pairs of
naturals to those strings is injective, so the set of keys is modelled as
the set of `(start, stop)` pairs already pushed to `segments`. -/
def hasKey (segs : List Seg) (s e : Nat) : Bool :=
  segs.any (fun w => w.start = s && w.stop = e)

/-- Phase 1 of `calculateSegmentPositions`: the
`for (let t = 0; t < earlyWindow; t += SEGMENT_DURATION)` loop.
`Sum.inl` models the early `return segments` taken once
`segments.length >= NUM_SEGMENTS`; `Sum.inr` is falling out of the loop. -/
def phase1Go (W N D : Nat) : List Nat → List Seg → (List Seg ⊕ List Seg)
  | [], segs => .inr segs
  | t :: ts, segs =>
    let e := min (t + W) D
    if 5 ≤ e - t then
      let segs' := if hasKey segs t e then segs else segs ++ [⟨t, e⟩]
      if N ≤ segs'.length then .inl segs'
      else phase1Go W N D ts segs'
    else phase1Go W N D ts segs

/-- Phase 2 of `calculateSegmentPositions`: one iteration of the
`for (const frac of spreadPoints)` loop.  The `break` once
`segments.length >= NUM_SEGMENTS` is modelled as a per-iteration guard,
which yields the same list because the loop body only appends.
The fraction is carried as an exact rational `num/den`. -/
def spreadStep (W N D : Nat) (segs : List Seg) (fr : Nat × Nat) : List Seg :=
  if N ≤ segs.length then segs
  else
    let pos := D * fr.1 / fr.2
    let s := pos - W / 2
    let e := min (s + W) D
    if 5 ≤ e - s ∧ hasKey segs s e = false then segs ++ [⟨s, e⟩] else segs

/-- Phase 3 of `calculateSegmentPositions`: one iteration of the
`while (segments.length < NUM_SEGMENTS && i < NUM_SEGMENTS * 2)` loop,
again with the loop condition as a per-iteration guard. -/
def evenStep (W N D : Nat) (segs : List Seg) (i : Nat) : List Seg :=
  if N ≤ segs.length then segs
  else
    let pos := D * i / N
    let e := min (pos + W) D
    if 5 ≤ e - pos ∧ hasKey segs pos e = false then segs ++ [⟨pos, e⟩] else segs

/-- The spread fractions `[0.25, 0.5, 0.85]` as exact rationals. -/
def spreadPoints : List (Nat × Nat) := [(1, 4), (1, 2), (17, 20)]

/-- The planner `calculateSegmentPositions(duration)` of `videoDownloader.js`,
parameterized by the configurable `SEGMENT_DURATION` (`W`) and
`NUM_SEGMENTS` (`N`). -/
def calculateSegmentPositions (W N D : Nat) : List Seg :=
  if D ≤ W then [⟨0, D⟩]
  else
    let earlyWindow := min 60 D
    let starts := (List.range ((earlyWindow + W - 1) / W)).map (· * W)
    match phase1Go W N D starts [] with
    | .inl segs => segs
    | .inr segs =>
      let segs2 := spreadPoints.foldl (spreadStep W N D) segs
      (List.range (N * 2)).foldl (evenStep W N D) segs2

/-- Two windows are disjoint when one ends before the other starts. -/
def disjointWindows (a b : Seg) : Prop := a.stop ≤ b.start ∨ b.stop ≤ a.start

instance (a b : Seg) : Decidable (disjointWindows a b) := by
  unfold disjointWindows; infer_instance

/-- The list carried by either side of a `phase1Go` result. -/
def segsOf : List Seg ⊕ List Seg → List Seg := Sum.elim id id

/-- Windows lying inside the asset and at least five seconds long. -/
def inBounds (D : Nat) (w : Seg) : Prop :=
  w.start < w.stop ∧ w.stop ≤ D ∧ 5 ≤ w.stop - w.start

end VideoDownloader

namespace MusicIdentifier

/-- Default of `SEGMENT_DURATION` in `musicIdentifier.js`
(`parseInt(process.env.SEGMENT_DURATION) || 60`) — note this default
differs from the downloader's. -/
def SEGMENT_DURATION : Nat := 60

/-- Default of `MAX_CONCURRENT_IDENTIFICATIONS` in `musicIdentifier.js`. -/
def MAX_CONCURRENT_IDENTIFICATIONS : Nat := 50

/-- Metadata of a successful ACRCloud match (the fields of
`response.data.metadata.music[0]` that the identifier copies). -/
structure AcrMusic where
  title : String
  artist : String
  confidence : Nat
  deriving DecidableEq, Repr

/-- An identified track as built by `identifyWithACRCloud`. -/
structure Track where
  title : String
  artist : String
  tsStart : Nat
  tsEnd : Nat
  confidence : Nat
  deriving DecidableEq, Repr

/-- Result construction of `identifyWithACRCloud(audioFile, segmentIndex)`.
All of that function's failure paths (missing credentials, missing or
empty or over/under-sized file, HTTP errors, non-zero ACRCloud status
codes including no-match 3001) return `null`, folded here into
`resp = none`.  On a match the reported time range is
`segmentIndex * SEGMENT_DURATION` to `(segmentIndex + 1) * SEGMENT_DURATION`. -/
def identifyWithACRCloud (resp : Option AcrMusic) (segmentIndex : Nat) : Option Track :=
  match resp with
  | none => none
  | some m =>
    some { title := m.title
           artist := m.artist
           tsStart := segmentIndex * SEGMENT_DURATION
           tsEnd := (segmentIndex + 1) * SEGMENT_DURATION
           confidence := m.confidence }

/-- The deduplication key `` `${track.title}-${track.artist}`.toLowerCase() ``
(ASCII lowering). -/
def trackKey (t : Track) : String := lowerStr (t.title ++ "-" ++ t.artist)

/-- Model of `uniqueTracks.find(t => key(t) === trackKey)` followed by
`existing.timestamp.end = Math.max(existing.timestamp.end, track.timestamp.end)`:
merge the new occurrence's end time into the first entry with the same key. -/
def mergeFirst : List Track → Track → List Track
  | [], _ => []
  | u :: us, t =>
    if trackKey u == trackKey t then { u with tsEnd := max u.tsEnd t.tsEnd } :: us
    else u :: mergeFirst us t

/-- One iteration of the deduplication loop of `identifyMusicTracks`:
the `seenTracks.has(trackKey)` test is equivalent to some entry of
`uniqueTracks` having the same key, since keys are added exactly when
tracks are pushed. -/
def dedupStep (acc : List Track) (t : Track) : List Track :=
  if acc.any (fun u => trackKey u == trackKey t) then mergeFirst acc t
  else acc ++ [t]

/-- The deduplication pass at the end of `identifyMusicTracks`. -/
def dedup (ts : List Track) : List Track := ts.foldl dedupStep []

/-- Fold of `Math.max` over the end times of a list, seeded by `e`. -/
def maxEndFrom (e : Nat) (ts : List Track) : Nat :=
  ts.foldl (fun m t => max m t.tsEnd) e

/-- Specification-style deduplication, written after the (amended) merge
rule: outcomes are grouped by equality of the lowercased joined key
`title-artist`; the output is in first-seen order; each entry keeps the
first-seen track's metadata and start time and gets the maximum end time
over all occurrences of its key. -/
def dedupSpec : List Track → List Track
  | [] => []
  | t :: ts =>
    { t with tsEnd := maxEndFrom t.tsEnd (ts.filter (fun u => trackKey u == trackKey t)) }
      :: dedupSpec (ts.filter (fun u => trackKey u != trackKey t))
termination_by l => l.length
decreasing_by
  exact Nat.lt_succ_of_le (List.length_filter_le _ _)

/-- Proof-side accumulator description: extend each entry of `acc` by the
end times of the occurrences in `ts` sharing its key.  Used to relate the
implementation fold to `dedupSpec`. -/
def absorb (acc ts : List Track) : List Track :=
  acc.map (fun u =>
    { u with tsEnd := maxEndFrom u.tsEnd (ts.filter (fun x => trackKey x == trackKey u)) })

/-- The batching loop of `identifyMusicTracks`: batches of size `C`
(`maxConcurrent`), with a progress write
`job.progress = Math.min(70 + Math.round(((i + batch.length)/total)*20), 90)`
after each batch.  Returns (progress writes, non-null results in order,
number of recognition calls issued).  The `C = 0` guard is only for
termination: the source computes `C = min(50, total)` and reaches the
loop only with `total ≥ 1`. -/
def identifyLoop (C total : Nat) (outs : List (Option Track)) (i : Nat) :
    List Nat × List Track × Nat :=
  if h : outs = [] ∨ C = 0 then ([], [], 0)
  else
    let batch := outs.take C
    let rest := outs.drop C
    let w := min (70 + jsRound ((i + batch.length) * 20) total) 90
    let r := identifyLoop C total rest (i + C)
    (w :: r.1, batch.filterMap id ++ r.2.1, batch.length + r.2.2)
termination_by outs.length
decreasing_by
  rw [List.length_drop]
  rcases outs with _ | ⟨a, l⟩
  · simp at h
  · simp at h; simp; omega

/-- Model of `identifyMusicTracks(segmentFiles, job)` over `n` segment files whose
per-file ACRCloud responses are given by `recog`.  When the access key or
secret is missing it returns the empty list at once, issuing no
recognition call and writing no progress.  Returns (progress writes,
deduplicated tracks, number of recognition calls issued). -/
def identifyMusicTracksM (creds : Bool) (recog : Nat → Option AcrMusic) (n : Nat) :
    List Nat × List Track × Nat :=
  if creds = false then ([], [], 0)
  else
    let outs := (List.range n).map (fun i => identifyWithACRCloud (recog i) i)
    let r := identifyLoop (min MAX_CONCURRENT_IDENTIFICATIONS n) n outs 0
    (r.1, dedup r.2.1, r.2.2)

end MusicIdentifier

namespace AudioExtractor

/-- Default of `SEGMENT_DURATION` in `audioExtractor.js`
(`parseInt(process.env.SEGMENT_DURATION) || 15`, the variant whose comment
reads "Keep segment duration consistent with downloader"). -/
def SEGMENT_DURATION : Nat := 15

/-- The count `segmentCount = Math.ceil(duration / SEGMENT_DURATION)` in
`splitAudioSegments`: the number of fixed-length windows the full audio
is split into, parameterized by the window length `W`. -/
def splitSegmentCount (W duration : Nat) : Nat := (duration + W - 1) / W

end AudioExtractor

namespace DownloadRoute

/-- Normalization core of POSIX path resolution: empty and `.` components
are dropped, and `..` removes the preceding component (staying at the
root when there is none). -/
def resolveGo : List (List Char) → List (List Char) → List (List Char)
  | acc, [] => acc
  | acc, c :: cs =>
    if c = [] ∨ c = ['.'] then resolveGo acc cs
    else if c = ['.', '.'] then resolveGo acc.dropLast cs
    else resolveGo (acc ++ [c]) cs

/-- Model of POSIX `path.resolve(p)` against the process working directory
`cwd` (itself an absolute path): an absolute `p` is normalized on its own,
a relative `p` is first placed under `cwd`; `.`, `..`, doubled and
trailing separators are normalized away component-wise. -/
def pathResolve (cwd p : String) : String :=
  let base := if strStarts p "/" then p.data else cwd.data ++ ('/' :: p.data)
  ⟨'/' :: List.intercalate ['/'] (resolveGo [] (base.splitOnP (· == '/')))⟩

/-- Model of `path.basename(filename)` (POSIX): the component after the
last `/`. -/
def pathBasename (p : String) : String :=
  ⟨((p.data.splitOnP (· == '/')).getLast?).getD p.data⟩

/-- The route's separator test
`filename.includes(path.sep) || filename.includes('/') || filename.includes('\\')`:
on POSIX `path.sep` is `/`, so the test is for either a slash or a
backslash. -/
def containsSep (s : String) : Bool := strContains s '/' || strContains s '\\'

/-- Responses of `GET /api/download/:filename` relevant to path handling. -/
inductive Resp where
  | forbidden
  | notFound
  | fileStream (p : String)
  deriving DecidableEq, Repr

/-- The `GET /api/download/:filename` handler: with a separator in the
filename, the filename and the configured directory `rawDir`
(`process.env.DOWNLOAD_DIR || './downloads'`) are both put through
`path.resolve` and the file is admitted iff
`filePath.startsWith(downloadsDir)`; without a separator the basename is
joined under the raw configured directory (`path.join`, modelled as the
textual join — its extra `.`/`..` collapsing can only change which path is
probed for existence, never produce the 403 response).  `exs` models
`fs.existsSync`. -/
def downloadEndpoint (cwd rawDir : String) (exs : String → Bool) (filename : String) :
    Resp :=
  let base := pathBasename filename
  if containsSep filename then
    let filePath := pathResolve cwd filename
    let downloadsDir := pathResolve cwd rawDir
    if ¬ strStarts filePath downloadsDir then .forbidden
    else if ¬ exs filePath then .notFound
    else .fileStream filePath
  else
    let filePath := rawDir ++ "/" ++ base
    if ¬ exs filePath then .notFound
    else .fileStream filePath

/-- The specification's notion of a path lying inside the artifact root:
a proper descendant of the download directory. -/
def insideRoot (root p : String) : Bool := strStarts p (root ++ "/")

end DownloadRoute

namespace Pipeline

open MusicIdentifier

/-- External calls made by a pipeline run, in order. -/
inductive Ev where
  | downloadSegments
  | downloadFull
  | extractAudio
  | identify
  deriving DecidableEq, Repr

/-- Job states of the job record. -/
inductive JobStatus where
  | processing
  | completed
  | failed
  deriving DecidableEq, Repr

/-- Asset metadata snapshot (`videoInfo`). -/
structure VideoInfo where
  title : String
  duration : Nat
  deriving DecidableEq, Repr

/-- Result of `downloadVideo(url, cb, {mode: 'segments'})`:
asset info plus the number of successfully fetched segment files. -/
structure SegDl where
  info : VideoInfo
  files : Nat
  deriving DecidableEq, Repr

/-- Result of `downloadVideo(url, cb, {mode: 'full'})`: asset info plus
whether an `audioFile` was produced directly (otherwise a `videoFile`
needing `extractAudio`). -/
structure FullDl where
  info : VideoInfo
  hasAudio : Bool
  deriving DecidableEq, Repr

/-- Oracle fixing the outcome of every external collaborator call of one
pipeline run: download results, the progress values the downloader
delivers to the progress callback, audio extraction, metadata probing,
the local split (number of files produced), whether ACRCloud credentials
are configured, and the per-index recognition responses. -/
structure Oracle where
  segDl : Except String SegDl
  segReports : List Nat
  fullDl : Except String FullDl
  fullReports : List Nat
  extractRes : Except String Unit
  metaRes : Except String Unit
  splitRes : Except String Nat
  creds : Bool
  recog : Nat → Option AcrMusic

/-- Observable outcome of a pipeline run: collaborator calls in order,
the sequence of values written to `job.progress`, and the final job
record fields. -/
structure Outcome where
  events : List Ev
  writes : List Nat
  status : JobStatus
  tracks : List Track
  tracksFound : Nat
  error : Option String

/-- The write `job.progress = Math.round(progress * 0.5)` of the optimized
pipeline's download progress callback. -/
def scale05 (p : Nat) : Nat := jsRound p 2

/-- The optimized `processVideo` (the unnamed source part's variant):
segment-mode download first; on any throw, a single irreversible
fallback to a full download (with `extractAudio` when only a video file
was produced), local split, then identification; progress is written at
0, scaled download reports (0–50), 50, 60 (or 60/70 on the fallback
path), the identification band, 95 and 100. -/
def processVideoOpt (o : Oracle) : Outcome :=
  let w0 : List Nat := [0]
  match o.segDl with
  | .ok sd =>
    let wDl := o.segReports.map scale05
    if sd.files = 0 then
      -- unreachable from the downloader (`downloadAudioSegments` throws on
      -- zero successes); with no segment files and no `audioFile`, the
      -- split-path probe of a null file rejects and the job fails
      { events := [.downloadSegments]
        writes := w0 ++ wDl ++ [50, 60]
        status := .failed
        tracks := []
        tracksFound := 0
        error := some "Failed to probe audio" }
    else
      let r := identifyMusicTracksM o.creds o.recog sd.files
      { events := [.downloadSegments, .identify]
        writes := w0 ++ wDl ++ [50, 60] ++ r.1 ++ [95, 100]
        status := .completed
        tracks := r.2.1
        tracksFound := r.2.1.length
        error := none }
  | .error _ =>
    let wSeg := o.segReports.map scale05
    match o.fullDl with
    | .error e2 =>
      { events := [.downloadSegments, .downloadFull]
        writes := w0 ++ wSeg ++ o.fullReports.map scale05
        status := .failed
        tracks := []
        tracksFound := 0
        error := some e2 }
    | .ok fd =>
      let wFull := o.fullReports.map scale05
      let base := w0 ++ wSeg ++ wFull
      let cont := fun (evs : List Ev) =>
        match o.metaRes, o.splitRes with
        | .ok _, .ok n2 =>
          let r := identifyMusicTracksM o.creds o.recog n2
          { events := evs ++ [.identify]
            writes := base ++ [50, 60, 70] ++ r.1 ++ [95, 100]
            status := .completed
            tracks := r.2.1
            tracksFound := r.2.1.length
            error := none }
        | .error e4, _ =>
          { events := evs
            writes := base ++ [50, 60]
            status := .failed
            tracks := []
            tracksFound := 0
            error := some e4 }
        | .ok _, .error e4 =>
          { events := evs
            writes := base ++ [50, 60]
            status := .failed
            tracks := []
            tracksFound := 0
            error := some e4 }
      if fd.hasAudio then cont [.downloadSegments, .downloadFull]
      else
        match o.extractRes with
        | .error e3 =>
          { events := [.downloadSegments, .downloadFull, .extractAudio]
            writes := base
            status := .failed
            tracks := []
            tracksFound := 0
            error := some e3 }
        | .ok _ => cont [.downloadSegments, .downloadFull, .extractAudio]

/-- The legacy `processVideo` of `videoProcessor.js`: one full download
whose callback writes the raw reported percentage straight into
`job.progress`, a forced `progress = 100` when the recorded download
progress is below 100, then 45 at the start of metadata/segmentation,
60, 65, the identification band, 95, and 100 on completion. -/
def processVideoLegacy (o : Oracle) : Outcome :=
  let w0 : List Nat := [0, 0]
  match o.fullDl with
  | .error e =>
    { events := [.downloadFull]
      writes := w0 ++ o.fullReports
      status := .failed
      tracks := []
      tracksFound := 0
      error := some e }
  | .ok fd =>
    let lastDp := o.fullReports.getLast?.getD 0
    let wFix : List Nat := if lastDp < 100 then [100] else []
    let base := w0 ++ o.fullReports ++ wFix
    let cont := fun (evs : List Ev) =>
      match o.metaRes, o.splitRes with
      | .ok _, .ok n2 =>
        let r := identifyMusicTracksM o.creds o.recog n2
        { events := evs ++ [.identify]
          writes := base ++ [45, 60, 65] ++ r.1 ++ [95, 100]
          status := .completed
          tracks := r.2.1
          tracksFound := r.2.1.length
          error := none }
      | .error e4, _ =>
        { events := evs
          writes := base ++ [45]
          status := .failed
          tracks := []
          tracksFound := 0
          error := some e4 }
      | .ok _, .error e4 =>
        { events := evs
          writes := base ++ [45]
          status := .failed
          tracks := []
          tracksFound := 0
          error := some e4 }
    if fd.hasAudio then cont [.downloadFull]
    else
      match o.extractRes with
      | .error e3 =>
        { events := [.downloadFull, .extractAudio]
          writes := base
          status := .failed
          tracks := []
          tracksFound := 0
          error := some e3 }
      | .ok _ => cont [.downloadFull, .extractAudio]


/-- Sample oracle: segment download succeeds with six files, recognition
configured, every window a no-match. -/
def oracleSegOk : Oracle where
  segDl := Except.ok ⟨⟨"t", 600⟩, 6⟩
  segReports := [10, 20, 60, 100]
  fullDl := Except.error "unused"
  fullReports := []
  extractRes := Except.ok ()
  metaRes := Except.ok ()
  splitRes := Except.ok 0
  creds := true
  recog := fun _ => none

/-- Sample oracle: segment download throws, full download succeeds with a
direct audio file, split yields 40 windows, one recognition match. -/
def oracleSegFail : Oracle where
  segDl := Except.error "All segments failed to download"
  segReports := [10]
  fullDl := Except.ok ⟨⟨"t", 600⟩, true⟩
  fullReports := [40, 100]
  extractRes := Except.ok ()
  metaRes := Except.ok ()
  splitRes := Except.ok 40
  creds := true
  recog := fun i => if i = 0 then some ⟨"X", "Y", 77⟩ else none

/-- Sample oracle: credentials missing, segment download succeeds. -/
def oracleNoCreds : Oracle where
  segDl := Except.ok ⟨⟨"t", 600⟩, 6⟩
  segReports := []
  fullDl := Except.error "unused"
  fullReports := []
  extractRes := Except.ok ()
  metaRes := Except.ok ()
  splitRes := Except.ok 0
  creds := false
  recog := fun _ => some ⟨"X", "Y", 77⟩

/-- Sample oracle for the legacy pipeline: download succeeds silently (no
progress callbacks fire), credentials are missing. -/
def oracleLegacyQuiet : Oracle where
  segDl := Except.error "unused"
  segReports := []
  fullDl := Except.ok ⟨⟨"t", 600⟩, true⟩
  fullReports := []
  extractRes := Except.ok ()
  metaRes := Except.ok ()
  splitRes := Except.ok 0
  creds := false
  recog := fun _ => none

/-- Sample oracle for the legacy pipeline: ten windows, all no-match,
credentials configured. -/
def oracleLegacyNoMatch : Oracle where
  segDl := Except.error "unused"
  segReports := []
  fullDl := Except.ok ⟨⟨"t", 600⟩, true⟩
  fullReports := [50, 100]
  extractRes := Except.ok ()
  metaRes := Except.ok ()
  splitRes := Except.ok 10
  creds := true
  recog := fun _ => none

end Pipeline


/-- A fold preserves any invariant preserved by each step. -/
theorem foldlPreserve {σ α : Type} {P : σ → Prop} {f : σ → α → σ}
    (hf : ∀ s a, P s → P (f s a)) :
    ∀ (l : List α) (s : σ), P s → P (l.foldl f s)
  | [], _, h => h
  | a :: l, s, h => foldlPreserve hf l (f s a) (hf s a h)

/-- Rounding is monotone in the numerator. -/
theorem jsRound_mono {a b : Nat} (den : Nat) (h : a ≤ b) : jsRound a den ≤ jsRound b den :=
  Nat.div_le_div_right (by omega)

namespace VideoDownloader

theorem phase1Go_length_le (W N D : Nat) :
    ∀ (ts : List Nat) (segs : List Seg), segs.length < N →
      (segsOf (phase1Go W N D ts segs)).length ≤ N := by
  intro ts
  induction ts with
  | nil => intro segs h; simpa [phase1Go, segsOf] using Nat.le_of_lt h
  | cons t ts ih =>
    intro segs h
    simp only [phase1Go]
    split
    · set segs' := if hasKey segs t (min (t + W) D) = true then segs
        else segs ++ [({ start := t, stop := min (t + W) D } : Seg)] with hdef
      have hlen : segs'.length ≤ segs.length + 1 := by
        rw [hdef]; split <;> simp
      split
      · next hN => simp only [segsOf, Sum.elim_inl, id_eq]; omega
      · next hN => exact ih segs' (by omega)
    · exact ih segs h

theorem phase1Go_bounds (W N D : Nat) :
    ∀ (ts : List Nat) (segs : List Seg), (∀ w ∈ segs, inBounds D w) →
      ∀ w ∈ segsOf (phase1Go W N D ts segs), inBounds D w := by
  intro ts
  induction ts with
  | nil => intro segs h; simpa [phase1Go, segsOf] using h
  | cons t ts ih =>
    intro segs h
    simp only [phase1Go]
    split
    · next h5 =>
      set segs' := if hasKey segs t (min (t + W) D) = true then segs
        else segs ++ [({ start := t, stop := min (t + W) D } : Seg)] with hdef
      have h' : ∀ w ∈ segs', inBounds D w := by
        rw [hdef]; split
        · exact h
        · intro w hw
          rcases List.mem_append.mp hw with hw | hw
          · exact h w hw
          · simp only [List.mem_singleton] at hw; subst hw
            refine ⟨?_, ?_, ?_⟩
            · show t < min (t + W) D
              omega
            · exact Nat.min_le_right _ _
            · exact h5
      split
      · simpa [segsOf] using h'
      · exact ih segs' h'
    · exact ih segs h

theorem spreadStep_length_le (W N D : Nat) (fr : Nat × Nat) (segs : List Seg)
    (h : segs.length ≤ N) : (spreadStep W N D segs fr).length ≤ N := by
  simp only [spreadStep]
  split
  · exact h
  · next hlt =>
    split
    · simp only [List.length_append, List.length_cons, List.length_nil]
      omega
    · exact h

theorem evenStep_length_le (W N D : Nat) (i : Nat) (segs : List Seg)
    (h : segs.length ≤ N) : (evenStep W N D segs i).length ≤ N := by
  simp only [evenStep]
  split
  · exact h
  · next hlt =>
    split
    · simp only [List.length_append, List.length_cons, List.length_nil]
      omega
    · exact h

theorem spreadStep_bounds (W N D : Nat) (fr : Nat × Nat) (segs : List Seg)
    (h : ∀ w ∈ segs, inBounds D w) : ∀ w ∈ spreadStep W N D segs fr, inBounds D w := by
  simp only [spreadStep]
  split
  · exact h
  · split
    · next hc =>
      intro w hw
      rcases List.mem_append.mp hw with hw | hw
      · exact h w hw
      · simp only [List.mem_singleton] at hw; subst hw
        refine ⟨?_, ?_, ?_⟩
        · show D * fr.1 / fr.2 - W / 2 < min (D * fr.1 / fr.2 - W / 2 + W) D
          have := hc.1
          omega
        · exact Nat.min_le_right _ _
        · exact hc.1
    · exact h

theorem evenStep_bounds (W N D : Nat) (i : Nat) (segs : List Seg)
    (h : ∀ w ∈ segs, inBounds D w) : ∀ w ∈ evenStep W N D segs i, inBounds D w := by
  simp only [evenStep]
  split
  · exact h
  · split
    · next hc =>
      intro w hw
      rcases List.mem_append.mp hw with hw | hw
      · exact h w hw
      · simp only [List.mem_singleton] at hw; subst hw
        refine ⟨?_, ?_, ?_⟩
        · show D * i / N < min (D * i / N + W) D
          have := hc.1
          omega
        · exact Nat.min_le_right _ _
        · exact hc.1
    · exact h

end VideoDownloader

namespace MusicIdentifier

theorem trackKey_setEnd (u : Track) (e : Nat) : trackKey { u with tsEnd := e } = trackKey u := rfl

theorem beqComm (a b : String) : (a == b) = (b == a) := by
  by_cases h : a = b
  · subst h; rfl
  · rw [beq_eq_false_iff_ne.mpr h, beq_eq_false_iff_ne.mpr (Ne.symm h)]

theorem mergeFirst_keys (acc : List Track) (t : Track) :
    (mergeFirst acc t).map trackKey = acc.map trackKey := by
  induction acc with
  | nil => rfl
  | cons u us ih =>
    simp only [mergeFirst]
    split
    · simp [trackKey_setEnd]
    · simp [ih]

theorem any_of_keys {l₁ l₂ : List Track} (h : l₁.map trackKey = l₂.map trackKey) (k : String) :
    l₁.any (fun u => trackKey u == k) = l₂.any (fun u => trackKey u == k) := by
  have e : ∀ l : List Track,
      l.any (fun u => trackKey u == k) = (l.map trackKey).any (fun s => s == k) := by
    intro l
    induction l with
    | nil => rfl
    | cons a l ih => simp only [List.any_cons, List.map_cons, ih]
  rw [e, e, h]

theorem mergeFirst_eq_map (t : Track) :
    ∀ (acc : List Track), (acc.map trackKey).Nodup →
      mergeFirst acc t =
        acc.map (fun u => if trackKey u == trackKey t
          then { u with tsEnd := max u.tsEnd t.tsEnd } else u) := by
  intro acc
  induction acc with
  | nil => intro _; rfl
  | cons u us ih =>
    intro hd
    simp only [mergeFirst, List.map_cons]
    by_cases h : (trackKey u == trackKey t) = true
    · rw [if_pos h, if_pos h]
      congr 1
      have hk : trackKey u = trackKey t := beq_iff_eq.mp h
      have hnot : ∀ v ∈ us, trackKey v ≠ trackKey t := by
        intro v hv heq
        have hu : trackKey u ∉ us.map trackKey := (List.nodup_cons.mp hd).1
        exact hu (by rw [hk, ← heq]; exact List.mem_map_of_mem _ hv)
      have hmap : us.map (fun v => if trackKey v == trackKey t
          then { v with tsEnd := max v.tsEnd t.tsEnd } else v) = us.map (fun a => a) :=
        List.map_congr_left
          (fun v hv => by rw [if_neg (fun hc => hnot v hv (beq_iff_eq.mp hc))])
      rw [hmap, List.map_id']
    · rw [if_neg h, if_neg h]
      rw [ih (List.nodup_cons.mp hd).2]

theorem absorb_nil (acc : List Track) : absorb acc [] = acc := List.map_id' acc

theorem foldl_dedupStep_eq (ts : List Track) :
    ∀ acc, (acc.map trackKey).Nodup →
      ts.foldl dedupStep acc =
        absorb acc ts ++
          dedupSpec (ts.filter (fun x => !(acc.any (fun u => trackKey u == trackKey x)))) := by
  induction ts with
  | nil =>
    intro acc _
    simp [absorb_nil, dedupSpec]
  | cons t ts ih =>
    intro acc hd
    rw [List.foldl_cons]
    by_cases hmem : acc.any (fun u => trackKey u == trackKey t) = true
    · have hstep : dedupStep acc t = mergeFirst acc t := by
        unfold dedupStep; rw [if_pos hmem]
      rw [hstep]
      have hd' : ((mergeFirst acc t).map trackKey).Nodup := by
        rw [mergeFirst_keys]; exact hd
      rw [ih _ hd']
      have hfilter : ts.filter
            (fun x => !((mergeFirst acc t).any (fun u => trackKey u == trackKey x)))
          = ts.filter (fun x => !(acc.any (fun u => trackKey u == trackKey x))) :=
        List.filter_congr
          (fun x _ => by rw [any_of_keys (mergeFirst_keys acc t)])
      rw [hfilter]
      have hcondt : (!(acc.any (fun u => trackKey u == trackKey t))) = false := by
        rw [hmem]; rfl
      have hdrop : List.filter (fun x => !(acc.any (fun u => trackKey u == trackKey x))) (t :: ts)
          = List.filter (fun x => !(acc.any (fun u => trackKey u == trackKey x))) ts :=
        List.filter_cons_of_neg (by
          show ¬ (!(acc.any (fun u => trackKey u == trackKey t))) = true
          rw [hcondt]; exact Bool.false_ne_true)
      rw [hdrop]
      have habs : absorb (mergeFirst acc t) ts = absorb acc (t :: ts) := by
        rw [mergeFirst_eq_map t acc hd]
        unfold absorb
        rw [List.map_map]
        apply List.map_congr_left
        intro u _
        by_cases h : (trackKey u == trackKey t) = true
        · have hk : trackKey u = trackKey t := beq_iff_eq.mp h
          simp only [Function.comp, if_pos h]
          have hft : List.filter (fun x => trackKey x == trackKey u) (t :: ts)
              = t :: List.filter (fun x => trackKey x == trackKey u) ts :=
            List.filter_cons_of_pos (beq_iff_eq.mpr hk.symm)
          rw [hft]
          rfl
        · have hk : trackKey u ≠ trackKey t := fun hh => h (beq_iff_eq.mpr hh)
          simp only [Function.comp, if_neg h]
          have hft : List.filter (fun x => trackKey x == trackKey u) (t :: ts)
              = List.filter (fun x => trackKey x == trackKey u) ts :=
            List.filter_cons_of_neg (fun hc => hk (beq_iff_eq.mp hc).symm)
          rw [hft]
      rw [habs]
    · have hstep : dedupStep acc t = acc ++ [t] := by
        unfold dedupStep; rw [if_neg hmem]
      rw [hstep]
      have hfalse : acc.any (fun u => trackKey u == trackKey t) = false :=
        Bool.eq_false_iff.mpr hmem
      have hnotin : ∀ u ∈ acc, (trackKey u == trackKey t) = false := by
        intro u hu
        by_contra hne
        exact hmem (List.any_eq_true.mpr ⟨u, hu, eq_true_of_ne_false hne⟩)
      have hd' : (((acc ++ [t]).map trackKey)).Nodup := by
        rw [List.map_append, List.nodup_append]
        refine ⟨hd, List.nodup_singleton _, ?_⟩
        intro a ha hb
        simp only [List.map_cons, List.map_nil, List.mem_singleton] at hb
        subst hb
        rcases List.mem_map.mp ha with ⟨u, hu, hku⟩
        have hres := hnotin u hu
        rw [beq_eq_false_iff_ne] at hres
        exact hres hku
      rw [ih _ hd']
      have habs : absorb (acc ++ [t]) ts
          = absorb acc ts ++
            [{ t with tsEnd := (maxEndFrom t.tsEnd
                (ts.filter (fun x => trackKey x == trackKey t))) }] := by
        unfold absorb
        rw [List.map_append]
        rfl
      rw [habs]
      have hpred : ∀ x : Track,
          (!((acc ++ [t]).any (fun u => trackKey u == trackKey x)))
            = ((trackKey x != trackKey t) && !(acc.any (fun u => trackKey u == trackKey x))) := by
        intro x
        simp only [List.any_append, List.any_cons, List.any_nil, Bool.or_false]
        rw [beqComm (trackKey t) (trackKey x)]
        cases h1 : acc.any (fun u => trackKey u == trackKey x) <;>
          cases h2 : trackKey x == trackKey t <;> simp [bne, h1, h2]
      have hsplit : ts.filter (fun x => !((acc ++ [t]).any (fun u => trackKey u == trackKey x)))
          = (ts.filter (fun x => !(acc.any (fun u => trackKey u == trackKey x)))).filter
              (fun u => trackKey u != trackKey t) := by
        rw [List.filter_filter]
        exact List.filter_congr (fun x _ => hpred x)
      rw [hsplit]
      have hkeep : List.filter (fun x => !(acc.any (fun u => trackKey u == trackKey x))) (t :: ts)
          = t :: List.filter (fun x => !(acc.any (fun u => trackKey u == trackKey x))) ts :=
        List.filter_cons_of_pos (by
          show (!(acc.any (fun u => trackKey u == trackKey t))) = true
          rw [hfalse]; rfl)
      rw [hkeep]
      have habs2 : absorb acc (t :: ts) = absorb acc ts := by
        unfold absorb
        apply List.map_congr_left
        intro u hu
        have hft : List.filter (fun x => trackKey x == trackKey u) (t :: ts)
            = List.filter (fun x => trackKey x == trackKey u) ts :=
          List.filter_cons_of_neg (by
            show ¬ (trackKey t == trackKey u) = true
            rw [beqComm (trackKey t) (trackKey u), hnotin u hu]
            exact Bool.false_ne_true)
        rw [hft]
      rw [habs2]
      simp only [dedupSpec]
      have hRfilter : (ts.filter (fun x => !(acc.any (fun u => trackKey u == trackKey x)))).filter
            (fun u => trackKey u == trackKey t) = ts.filter (fun x => trackKey x == trackKey t) := by
        rw [List.filter_filter]
        apply List.filter_congr
        intro x _
        by_cases hq : (trackKey x == trackKey t) = true
        · have hx : acc.any (fun u => trackKey u == trackKey x) = false := by
            have hk : trackKey x = trackKey t := beq_iff_eq.mp hq
            calc acc.any (fun u => trackKey u == trackKey x)
                = acc.any (fun u => trackKey u == trackKey t) := by rw [hk]
              _ = false := hfalse
          rw [hq, hx]
          rfl
        · have hq' : (trackKey x == trackKey t) = false := Bool.eq_false_iff.mpr hq
          rw [hq']
          simp
      rw [hRfilter]
      rw [List.append_assoc, List.singleton_append]

/-- Claim C2, amended: the deduplication pass of `identifyMusicTracks`
merges two outcomes exactly when their lowercased joined keys
`title + "-" + artist` are equal (not when their case-insensitive
(title, artist) pairs are equal — see `dedup_key_collision_cex`); on a
merge the first-seen track's metadata and start time are kept and its end
time is extended to the maximum end time over all occurrences of the key,
in first-seen order.  `dedupSpec` is that specification, written
independently of the fold. -/
theorem dedup_eq_dedupSpec (ts : List Track) : dedup ts = dedupSpec ts := by
  have h := foldl_dedupStep_eq ts [] (by simp)
  simp only [absorb, List.map_nil, List.nil_append, List.any_nil, Bool.not_false,
    List.filter_true] at h
  unfold dedup
  exact h

end MusicIdentifier

namespace MusicIdentifier

theorem identifyLoop_nil (C total i : Nat) : identifyLoop C total [] i = ([], [], 0) := by
  rw [identifyLoop]
  simp

theorem identifyLoop_cons (C total i : Nat) (outs : List (Option Track))
    (h : ¬(outs = [] ∨ C = 0)) :
    identifyLoop C total outs i =
      (min (70 + jsRound ((i + min C outs.length) * 20) total) 90
          :: (identifyLoop C total (outs.drop C) (i + C)).1,
        (outs.take C).filterMap id ++ (identifyLoop C total (outs.drop C) (i + C)).2.1,
        min C outs.length + (identifyLoop C total (outs.drop C) (i + C)).2.2) := by
  rw [identifyLoop]
  rw [dif_neg h]
  simp [List.length_take]

theorem identifyLoop_tracks_eq (C total : Nat) (hC : 0 < C) :
    ∀ (n : Nat) (outs : List (Option Track)), outs.length ≤ n → ∀ (i : Nat),
      (identifyLoop C total outs i).2.1 = outs.filterMap id := by
  intro n
  induction n with
  | zero =>
    intro outs hlen i
    have h0 : outs = [] := List.eq_nil_of_length_eq_zero (Nat.le_zero.mp hlen)
    subst h0
    rw [identifyLoop_nil]
    rfl
  | succ n ih =>
    intro outs hlen i
    by_cases h : outs = [] ∨ C = 0
    · rcases h with h | h
      · subst h; rw [identifyLoop_nil]; rfl
      · omega
    · rw [identifyLoop_cons C total i outs h]
      have hne : outs ≠ [] := fun hh => h (Or.inl hh)
      have hlen1 : 1 ≤ outs.length := by
        rcases outs with _ | ⟨a, l⟩
        · exact absurd rfl hne
        · simp
      rw [ih (outs.drop C) (by rw [List.length_drop]; omega) (i + C)]
      rw [← List.filterMap_append, List.take_append_drop]

theorem identifyLoop_calls_eq (C total : Nat) (hC : 0 < C) :
    ∀ (n : Nat) (outs : List (Option Track)), outs.length ≤ n → ∀ (i : Nat),
      (identifyLoop C total outs i).2.2 = outs.length := by
  intro n
  induction n with
  | zero =>
    intro outs hlen i
    have h0 : outs = [] := List.eq_nil_of_length_eq_zero (Nat.le_zero.mp hlen)
    subst h0
    rw [identifyLoop_nil]
    rfl
  | succ n ih =>
    intro outs hlen i
    by_cases h : outs = [] ∨ C = 0
    · rcases h with h | h
      · subst h; rw [identifyLoop_nil]; rfl
      · omega
    · rw [identifyLoop_cons C total i outs h]
      have hne : outs ≠ [] := fun hh => h (Or.inl hh)
      have hlen1 : 1 ≤ outs.length := by
        rcases outs with _ | ⟨a, l⟩
        · exact absurd rfl hne
        · simp
      rw [ih (outs.drop C) (by rw [List.length_drop]; omega) (i + C)]
      rw [List.length_drop]
      show min C outs.length + (outs.length - C) = outs.length
      omega

theorem identifyLoop_writes_mem (C total : Nat) :
    ∀ (n : Nat) (outs : List (Option Track)), outs.length ≤ n → ∀ (i : Nat),
      ∀ w ∈ (identifyLoop C total outs i).1, 70 ≤ w ∧ w ≤ 90 := by
  intro n
  induction n with
  | zero =>
    intro outs hlen i
    have h0 : outs = [] := List.eq_nil_of_length_eq_zero (Nat.le_zero.mp hlen)
    subst h0
    rw [identifyLoop_nil]
    intro w hw
    simp at hw
  | succ n ih =>
    intro outs hlen i
    by_cases h : outs = [] ∨ C = 0
    · rcases h with h | h
      · subst h; rw [identifyLoop_nil]; intro w hw; simp at hw
      · rw [identifyLoop]; rw [dif_pos (Or.inr h)]; intro w hw; simp at hw
    · rw [identifyLoop_cons C total i outs h]
      have hne : outs ≠ [] := fun hh => h (Or.inl hh)
      have hC : C ≠ 0 := fun hh => h (Or.inr hh)
      have hlen1 : 1 ≤ outs.length := by
        rcases outs with _ | ⟨a, l⟩
        · exact absurd rfl hne
        · simp
      intro w hw
      rcases List.mem_cons.mp hw with hw | hw
      · subst hw
        constructor
        · exact le_min (by omega) (by omega)
        · exact min_le_right _ _
      · exact ih (outs.drop C) (by rw [List.length_drop]; omega) (i + C) w hw

theorem identifyLoop_writes_chain (C total : Nat) :
    ∀ (n : Nat) (outs : List (Option Track)), outs.length ≤ n → ∀ (i : Nat),
      List.Chain' (· ≤ ·) (identifyLoop C total outs i).1 := by
  intro n
  induction n with
  | zero =>
    intro outs hlen i
    have h0 : outs = [] := List.eq_nil_of_length_eq_zero (Nat.le_zero.mp hlen)
    subst h0
    rw [identifyLoop_nil]
    exact List.chain'_nil
  | succ n ih =>
    intro outs hlen i
    by_cases h : outs = [] ∨ C = 0
    · rcases h with h | h
      · subst h; rw [identifyLoop_nil]; exact List.chain'_nil
      · rw [identifyLoop]; rw [dif_pos (Or.inr h)]; exact List.chain'_nil
    · rw [identifyLoop_cons C total i outs h]
      have hne : outs ≠ [] := fun hh => h (Or.inl hh)
      have hCne : C ≠ 0 := fun hh => h (Or.inr hh)
      have hlen1 : 1 ≤ outs.length := by
        rcases outs with _ | ⟨a, l⟩
        · exact absurd rfl hne
        · simp
      rw [List.chain'_cons']
      constructor
      · intro y hy
        by_cases h2 : outs.drop C = [] ∨ C = 0
        · have : (identifyLoop C total (outs.drop C) (i + C)).1 = [] := by
            rcases h2 with h2 | h2
            · rw [h2, identifyLoop_nil]
            · omega
          rw [this] at hy
          simp at hy
        · rw [identifyLoop_cons C total (i + C) (outs.drop C) h2] at hy
          simp only [List.head?_cons, Option.mem_def, Option.some.injEq] at hy
          subst hy
          have hgt : C < outs.length := by
            have : ¬ (outs.drop C = []) := fun hh => h2 (Or.inl hh)
            rw [List.drop_eq_nil_iff] at this
            omega
          have hmin : min C outs.length = C := min_eq_left (Nat.le_of_lt hgt)
          rw [hmin]
          refine min_le_min ?_ (le_refl 90)
          have harg : (i + C) * 20 ≤ (i + C + min C (outs.drop C).length) * 20 :=
            Nat.mul_le_mul_right _ (by omega)
          exact Nat.add_le_add_left (jsRound_mono total harg) 70
      · exact ih (outs.drop C) (by rw [List.length_drop]; omega) (i + C)

end MusicIdentifier

namespace MusicIdentifier

theorem identifyMusicTracksM_no_creds (recog : Nat → Option AcrMusic) (n : Nat) :
    identifyMusicTracksM false recog n = ([], [], 0) := rfl

theorem identifyMusicTracksM_writes_mem (creds : Bool) (recog : Nat → Option AcrMusic) (n : Nat) :
    ∀ w ∈ (identifyMusicTracksM creds recog n).1, 70 ≤ w ∧ w ≤ 90 := by
  cases creds
  · intro w hw; rw [identifyMusicTracksM_no_creds] at hw; simp at hw
  · intro w hw
    unfold identifyMusicTracksM at hw
    simp only [Bool.true_eq_false, if_neg] at hw
    exact identifyLoop_writes_mem (min MAX_CONCURRENT_IDENTIFICATIONS n) n
      (((List.range n).map (fun i => identifyWithACRCloud (recog i) i)).length)
      _ (le_refl _) 0 w hw

theorem identifyMusicTracksM_writes_chain (creds : Bool) (recog : Nat → Option AcrMusic) (n : Nat) :
    List.Chain' (· ≤ ·) (identifyMusicTracksM creds recog n).1 := by
  cases creds
  · rw [identifyMusicTracksM_no_creds]; exact List.chain'_nil
  · unfold identifyMusicTracksM
    simp only [Bool.true_eq_false, if_neg]
    exact identifyLoop_writes_chain (min MAX_CONCURRENT_IDENTIFICATIONS n) n
      (((List.range n).map (fun i => identifyWithACRCloud (recog i) i)).length)
      _ (le_refl _) 0

theorem identifyMusicTracksM_tracks_all_none (recog : Nat → Option AcrMusic) (n : Nat)
    (h : ∀ i, recog i = none) :
    (identifyMusicTracksM true recog n).2.1 = [] := by
  unfold identifyMusicTracksM
  simp only [Bool.true_eq_false, if_neg]
  rcases Nat.eq_zero_or_pos n with hn | hn
  · subst hn
    simp [identifyLoop_nil, dedup]
  · have houts : ((List.range n).map (fun i => identifyWithACRCloud (recog i) i)) =
        (List.range n).map (fun _ => (none : Option Track)) := by
      apply List.map_congr_left
      intro i _
      rw [h i]
      rfl
    rw [identifyLoop_tracks_eq (min MAX_CONCURRENT_IDENTIFICATIONS n) n (by
        simp [MAX_CONCURRENT_IDENTIFICATIONS]; omega) _ _ (le_refl _) 0]
    rw [houts]
    have : ((List.range n).map (fun _ => (none : Option Track))).filterMap id = [] := by
      rw [List.filterMap_eq_nil_iff]
      intro a ha
      rcases List.mem_map.mp ha with ⟨i, _, hi⟩
      rw [← hi]
      rfl
    rw [this]
    rfl

end MusicIdentifier

namespace Pipeline

theorem scale05_le_50 {p : Nat} (hp : p ≤ 100) : scale05 p ≤ 50 := by
  unfold scale05 jsRound
  calc (2 * p + 2) / (2 * 2) ≤ (2 * 100 + 2) / (2 * 2) := Nat.div_le_div_right (by omega)
    _ = 50 := by norm_num

theorem scale05_mono {a b : Nat} (h : a ≤ b) : scale05 a ≤ scale05 b :=
  jsRound_mono 2 h

theorem writes_block_pairwise (dl mid idw : List Nat)
    (hdl : dl.Pairwise (· ≤ ·)) (hdl50 : ∀ x ∈ dl, x ≤ 50)
    (hmid : mid.Pairwise (· ≤ ·)) (hmidb : ∀ x ∈ mid, 50 ≤ x ∧ x ≤ 70)
    (hid : idw.Pairwise (· ≤ ·)) (hidb : ∀ x ∈ idw, 70 ≤ x ∧ x ≤ 90) :
    (0 :: (dl ++ (mid ++ (idw ++ [95, 100])))).Pairwise (· ≤ ·) := by
  rw [List.pairwise_cons]
  refine ⟨fun y _ => Nat.zero_le y, ?_⟩
  refine List.pairwise_append.mpr ⟨hdl, ?_, ?_⟩
  · refine List.pairwise_append.mpr ⟨hmid, ?_, ?_⟩
    · refine List.pairwise_append.mpr ⟨hid, by decide, ?_⟩
      intro a ha b hb
      have h90 := (hidb a ha).2
      have : b = 95 ∨ b = 100 := by
        rcases List.mem_cons.mp hb with hb | hb
        · exact Or.inl hb
        · simp only [List.mem_singleton] at hb; exact Or.inr hb
      omega
    · intro a ha b hb
      have h70 := (hmidb a ha).2
      rcases List.mem_append.mp hb with hb | hb
      · exact le_trans h70 (hidb b hb).1
      · have : b = 95 ∨ b = 100 := by
          rcases List.mem_cons.mp hb with hb | hb
          · exact Or.inl hb
          · simp only [List.mem_singleton] at hb; exact Or.inr hb
        omega
  · intro a ha b hb
    have ha50 := hdl50 a ha
    rcases List.mem_append.mp hb with hb | hb
    · exact le_trans ha50 (hmidb b hb).1
    · rcases List.mem_append.mp hb with hb | hb
      · exact le_trans ha50 (le_trans (by omega) (hidb b hb).1)
      · have : b = 95 ∨ b = 100 := by
          rcases List.mem_cons.mp hb with hb | hb
          · exact Or.inl hb
          · simp only [List.mem_singleton] at hb; exact Or.inr hb
        omega

theorem writes_tail_pairwise (dl tail : List Nat)
    (hdl : dl.Pairwise (· ≤ ·)) (hdl50 : ∀ x ∈ dl, x ≤ 50)
    (htail : tail.Pairwise (· ≤ ·)) (htlb : ∀ x ∈ tail, 50 ≤ x) :
    (0 :: (dl ++ tail)).Pairwise (· ≤ ·) := by
  rw [List.pairwise_cons]
  refine ⟨fun y _ => Nat.zero_le y, ?_⟩
  exact List.pairwise_append.mpr
    ⟨hdl, htail, fun a ha b hb => le_trans (hdl50 a ha) (htlb b hb)⟩

end Pipeline

namespace Pipeline

open MusicIdentifier in
/-- Claim C1, amended: in the optimized pipeline (the unnamed source
part's `processVideo`), the sequence of values written to `job.progress`
is non-decreasing, provided the download progress values delivered to the
progress callback are non-decreasing and at most 100 (as the values
generated by `downloadVideoSegments` are).  The legacy pipeline violates
the original claim: see `legacy_progress_decreases_cex`. -/
theorem optimized_progress_monotone (o : Oracle)
    (hmono : (o.segReports ++ o.fullReports).Pairwise (· ≤ ·))
    (hbound : ∀ p ∈ o.segReports ++ o.fullReports, p ≤ 100) :
    (processVideoOpt o).writes.Pairwise (· ≤ ·) := by
  obtain ⟨segDl, segReports, fullDl, fullReports, extractRes, metaRes, splitRes, creds, recog⟩ := o
  simp only at hmono hbound ⊢
  have hS : (segReports.map scale05).Pairwise (· ≤ ·) :=
    List.Pairwise.map scale05 (fun a b h => scale05_mono h)
      (hmono.sublist (List.sublist_append_left _ _))
  have hSF : (segReports.map scale05 ++ fullReports.map scale05).Pairwise (· ≤ ·) := by
    rw [← List.map_append]
    exact List.Pairwise.map scale05 (fun a b h => scale05_mono h) hmono
  have hS50 : ∀ x ∈ segReports.map scale05, x ≤ 50 := by
    intro x hx
    rcases List.mem_map.mp hx with ⟨p, hp, rfl⟩
    exact scale05_le_50 (hbound p (List.mem_append.mpr (Or.inl hp)))
  have hSF50 : ∀ x ∈ segReports.map scale05 ++ fullReports.map scale05, x ≤ 50 := by
    intro x hx
    rw [← List.map_append] at hx
    rcases List.mem_map.mp hx with ⟨p, hp, rfl⟩
    exact scale05_le_50 (hbound p hp)
  have hIp : ∀ n2, ((identifyMusicTracksM creds recog n2).1).Pairwise (· ≤ ·) := fun n2 =>
    List.chain'_iff_pairwise.mp (identifyMusicTracksM_writes_chain creds recog n2)
  have hIb : ∀ n2, ∀ x ∈ (identifyMusicTracksM creds recog n2).1, 70 ≤ x ∧ x ≤ 90 :=
    identifyMusicTracksM_writes_mem creds recog
  have hnil : ∀ x ∈ ([] : List Nat), 50 ≤ x := fun x hx => absurd hx (List.not_mem_nil x)
  rcases segDl with e | sd
  · rcases fullDl with e2 | fd
    · have hw : (processVideoOpt ⟨Except.error e, segReports, Except.error e2, fullReports,
          extractRes, metaRes, splitRes, creds, recog⟩).writes
          = [0] ++ segReports.map scale05 ++ fullReports.map scale05 := rfl
      rw [hw, List.append_assoc, List.singleton_append, ← List.append_nil (segReports.map scale05 ++ fullReports.map scale05)]
      exact writes_tail_pairwise _ [] hSF hSF50 List.Pairwise.nil hnil
    · rcases fd with ⟨info, hasAudio⟩
      cases hasAudio
      · rcases extractRes with e3 | u
        · have hw : (processVideoOpt ⟨Except.error e, segReports, Except.ok ⟨info, false⟩,
              fullReports, Except.error e3, metaRes, splitRes, creds, recog⟩).writes
              = [0] ++ segReports.map scale05 ++ fullReports.map scale05 := rfl
          rw [hw, List.append_assoc, List.singleton_append,
            ← List.append_nil (segReports.map scale05 ++ fullReports.map scale05)]
          exact writes_tail_pairwise _ [] hSF hSF50 List.Pairwise.nil hnil
        · rcases metaRes with e4 | mu
          · have hw : (processVideoOpt ⟨Except.error e, segReports, Except.ok ⟨info, false⟩,
                fullReports, Except.ok u, Except.error e4, splitRes, creds, recog⟩).writes
                = [0] ++ segReports.map scale05 ++ fullReports.map scale05 ++ [50, 60] := rfl
            rw [hw, List.append_assoc, List.append_assoc, List.singleton_append,
              ← List.append_assoc (segReports.map scale05)]
            exact writes_tail_pairwise _ [50, 60] hSF hSF50 (by decide) (by decide)
          · rcases splitRes with e5 | n2
            · have hw : (processVideoOpt ⟨Except.error e, segReports, Except.ok ⟨info, false⟩,
                  fullReports, Except.ok u, Except.ok mu, Except.error e5, creds, recog⟩).writes
                  = [0] ++ segReports.map scale05 ++ fullReports.map scale05 ++ [50, 60] := rfl
              rw [hw, List.append_assoc, List.append_assoc, List.singleton_append,
                ← List.append_assoc (segReports.map scale05)]
              exact writes_tail_pairwise _ [50, 60] hSF hSF50 (by decide) (by decide)
            · have hw : (processVideoOpt ⟨Except.error e, segReports, Except.ok ⟨info, false⟩,
                  fullReports, Except.ok u, Except.ok mu, Except.ok n2, creds, recog⟩).writes
                  = [0] ++ segReports.map scale05 ++ fullReports.map scale05 ++ [50, 60, 70]
                    ++ (identifyMusicTracksM creds recog n2).1 ++ [95, 100] := rfl
              rw [hw]
              simp only [List.append_assoc]
              rw [← List.append_assoc (segReports.map scale05) (fullReports.map scale05),
                List.singleton_append]
              exact writes_block_pairwise _ [50, 60, 70] _ hSF hSF50 (by decide) (by decide)
                (hIp n2) (hIb n2)
      · rcases metaRes with e4 | mu
        · have hw : (processVideoOpt ⟨Except.error e, segReports, Except.ok ⟨info, true⟩,
              fullReports, extractRes, Except.error e4, splitRes, creds, recog⟩).writes
              = [0] ++ segReports.map scale05 ++ fullReports.map scale05 ++ [50, 60] := rfl
          rw [hw, List.append_assoc, List.append_assoc, List.singleton_append,
            ← List.append_assoc (segReports.map scale05)]
          exact writes_tail_pairwise _ [50, 60] hSF hSF50 (by decide) (by decide)
        · rcases splitRes with e5 | n2
          · have hw : (processVideoOpt ⟨Except.error e, segReports, Except.ok ⟨info, true⟩,
                fullReports, extractRes, Except.ok mu, Except.error e5, creds, recog⟩).writes
                = [0] ++ segReports.map scale05 ++ fullReports.map scale05 ++ [50, 60] := rfl
            rw [hw, List.append_assoc, List.append_assoc, List.singleton_append,
              ← List.append_assoc (segReports.map scale05)]
            exact writes_tail_pairwise _ [50, 60] hSF hSF50 (by decide) (by decide)
          · have hw : (processVideoOpt ⟨Except.error e, segReports, Except.ok ⟨info, true⟩,
                fullReports, extractRes, Except.ok mu, Except.ok n2, creds, recog⟩).writes
                = [0] ++ segReports.map scale05 ++ fullReports.map scale05 ++ [50, 60, 70]
                  ++ (identifyMusicTracksM creds recog n2).1 ++ [95, 100] := rfl
            rw [hw]
            simp only [List.append_assoc]
            rw [← List.append_assoc (segReports.map scale05) (fullReports.map scale05),
              List.singleton_append]
            exact writes_block_pairwise _ [50, 60, 70] _ hSF hSF50 (by decide) (by decide)
              (hIp n2) (hIb n2)
  · rcases sd with ⟨info, files⟩
    cases files with
    | zero =>
      have hw : (processVideoOpt ⟨Except.ok ⟨info, 0⟩, segReports, fullDl, fullReports,
          extractRes, metaRes, splitRes, creds, recog⟩).writes
          = [0] ++ segReports.map scale05 ++ [50, 60] := rfl
      rw [hw, List.append_assoc, List.singleton_append]
      exact writes_tail_pairwise _ [50, 60] hS hS50 (by decide) (by decide)
    | succ k =>
      have hw : (processVideoOpt ⟨Except.ok ⟨info, k + 1⟩, segReports, fullDl, fullReports,
          extractRes, metaRes, splitRes, creds, recog⟩).writes
          = [0] ++ segReports.map scale05 ++ [50, 60]
            ++ (identifyMusicTracksM creds recog (k + 1)).1 ++ [95, 100] := rfl
      rw [hw]
      simp only [List.append_assoc]
      rw [List.singleton_append]
      exact writes_block_pairwise _ [50, 60] _ hS hS50 (by decide) (by decide)
        (hIp (k + 1)) (hIb (k + 1))

end Pipeline

namespace Pipeline

open MusicIdentifier in
/-- Claim C6: for every collaborator-outcome oracle, the optimized
pipeline attempts the segment path exactly once and first; when the
segment download succeeds the full path is never attempted, and when it
throws the full path is attempted exactly once, so segment mode is never
re-entered. -/
theorem fallback_switches_once (o : Oracle) :
    (processVideoOpt o).events.count .downloadSegments = 1 ∧
    (processVideoOpt o).events.head? = some .downloadSegments ∧
    (∀ sd, o.segDl = .ok sd → (processVideoOpt o).events.count .downloadFull = 0) ∧
    (∀ e, o.segDl = .error e → (processVideoOpt o).events.count .downloadFull = 1) := by
  obtain ⟨segDl, segReports, fullDl, fullReports, extractRes, metaRes, splitRes, creds, recog⟩ := o
  rcases segDl with e | sd
  · rcases fullDl with e2 | fd
    · exact ⟨rfl, rfl, fun sd h => Except.noConfusion h, fun e h => rfl⟩
    · rcases fd with ⟨info, hasAudio⟩
      cases hasAudio
      · rcases extractRes with e3 | u
        · exact ⟨rfl, rfl, fun sd h => Except.noConfusion h, fun e h => rfl⟩
        · rcases metaRes with e4 | mu
          · exact ⟨rfl, rfl, fun sd h => Except.noConfusion h, fun e h => rfl⟩
          · rcases splitRes with e5 | n2
            · exact ⟨rfl, rfl, fun sd h => Except.noConfusion h, fun e h => rfl⟩
            · exact ⟨rfl, rfl, fun sd h => Except.noConfusion h, fun e h => rfl⟩
      · rcases metaRes with e4 | mu
        · exact ⟨rfl, rfl, fun sd h => Except.noConfusion h, fun e h => rfl⟩
        · rcases splitRes with e5 | n2
          · exact ⟨rfl, rfl, fun sd h => Except.noConfusion h, fun e h => rfl⟩
          · exact ⟨rfl, rfl, fun sd h => Except.noConfusion h, fun e h => rfl⟩
  · rcases sd with ⟨info, files⟩
    cases files with
    | zero => exact ⟨rfl, rfl, fun sd h => rfl, fun e h => Except.noConfusion h⟩
    | succ k => exact ⟨rfl, rfl, fun sd h => rfl, fun e h => Except.noConfusion h⟩

open MusicIdentifier in
/-- Claim C7: if the download, metadata and split steps succeed,
credentials are configured, and the recognition service returns no match
for every submitted window, the legacy pipeline ends the job with status
`completed`, an empty track list and `tracksFound = 0` — never `failed`
because of per-window recognition outcomes. -/
theorem legacy_no_match_completes (o : Oracle) (fd : FullDl) (n : Nat)
    (hdl : o.fullDl = .ok fd)
    (hex : o.extractRes = .ok ())
    (hmeta : o.metaRes = .ok ())
    (hsplit : o.splitRes = .ok n)
    (hcreds : o.creds = true)
    (hnone : ∀ i, o.recog i = none) :
    (processVideoLegacy o).status = .completed ∧
    (processVideoLegacy o).tracks = [] ∧
    (processVideoLegacy o).tracksFound = 0 := by
  obtain ⟨segDl, segReports, fullDl, fullReports, extractRes, metaRes, splitRes, creds, recog⟩ := o
  simp only at hdl hex hmeta hsplit hcreds hnone
  subst hdl hex hmeta hsplit hcreds
  rcases fd with ⟨info, hasAudio⟩
  have htr : (identifyMusicTracksM true recog n).2.1 = [] :=
    identifyMusicTracksM_tracks_all_none recog n hnone
  cases hasAudio
  · refine ⟨rfl, ?_, ?_⟩
    · show (identifyMusicTracksM true recog n).2.1 = []
      exact htr
    · show (identifyMusicTracksM true recog n).2.1.length = 0
      rw [htr]
      rfl
  · refine ⟨rfl, ?_, ?_⟩
    · show (identifyMusicTracksM true recog n).2.1 = []
      exact htr
    · show (identifyMusicTracksM true recog n).2.1.length = 0
      rw [htr]
      rfl

open MusicIdentifier in
/-- Claim C10: when the ACRCloud access key or secret is not configured,
`identifyMusicTracks` returns the empty list immediately, issuing zero
recognition calls and writing no progress, and a job whose segment
download succeeded still completes with zero tracks. -/
theorem missing_creds_empty_completed (o : Oracle) (sd : SegDl)
    (hcreds : o.creds = false)
    (hdl : o.segDl = .ok sd) (hf : sd.files ≠ 0) :
    identifyMusicTracksM o.creds o.recog sd.files = ([], [], 0) ∧
    (processVideoOpt o).status = .completed ∧
    (processVideoOpt o).tracks = [] ∧
    (processVideoOpt o).tracksFound = 0 := by
  obtain ⟨segDl, segReports, fullDl, fullReports, extractRes, metaRes, splitRes, creds, recog⟩ := o
  obtain ⟨info, files⟩ := sd
  simp only at hcreds hdl hf ⊢
  subst hcreds hdl
  refine ⟨rfl, ?_, ?_, ?_⟩ <;>
    · simp only [processVideoOpt]
      rw [if_neg hf]
      try rfl

end Pipeline

namespace MusicIdentifier

/-- Claim C9: every track built by `identifyWithACRCloud` for submission
index `i` reports the time range `i * SEGMENT_DURATION` to
`(i+1) * SEGMENT_DURATION` with the identifier's fixed segment duration of
60 seconds, regardless of the planned window's actual start and end; in
particular the first planned window of a 600-second asset is `[0, 15]`,
which the reported range `[0, 60]` does not coincide with. -/
theorem reported_range_from_index (r : Option AcrMusic) (i : Nat) (t : Track)
    (h : identifyWithACRCloud r i = some t) :
    t.tsStart = i * SEGMENT_DURATION ∧ t.tsEnd = (i + 1) * SEGMENT_DURATION ∧
    SEGMENT_DURATION = 60 ∧
    (VideoDownloader.calculateSegmentPositions VideoDownloader.SEGMENT_DURATION
        VideoDownloader.NUM_SEGMENTS 600).head? = some ⟨0, 15⟩ ∧
    1 * SEGMENT_DURATION ≠ 15 := by
  rcases r with _ | m
  · exact absurd h (by simp [identifyWithACRCloud])
  · simp only [identifyWithACRCloud, Option.some.injEq] at h
    subst h
    exact ⟨rfl, rfl, rfl, by decide, by decide⟩

/-- Claim C2, counterexample: the tracks (title "a-b", artist "c") and
(title "a", artist "b-c") have different case-insensitive (title, artist)
pairs, yet the deduplicator merges them into one entry, because both have
the joined key "a-b-c".  So "merged iff case-insensitive (title, artist)
pairs are equal" fails in the only-if direction. -/
theorem dedup_key_collision_cex :
    dedup [⟨"a-b", "c", 10, 25, 90⟩, ⟨"a", "b-c", 100, 115, 80⟩]
        = [⟨"a-b", "c", 10, 115, 90⟩] ∧
    ¬ (lowerStr (Track.mk "a-b" "c" 10 25 90).title = lowerStr (Track.mk "a" "b-c" 100 115 80).title ∧
       lowerStr (Track.mk "a-b" "c" 10 25 90).artist = lowerStr (Track.mk "a" "b-c" 100 115 80).artist) := by
  constructor
  · rfl
  · decide

end MusicIdentifier

/-- Claim C5: the full-path split uses the same window length as segment
planning (both `SEGMENT_DURATION` defaults are 15 via the same
environment variable), the split of a 600-second asset yields 40 windows,
and in general `splitSegmentCount W D` is the ceiling of `D / W`:
the least `k` with `D ≤ W * k`. -/
theorem splitAudio_window_count :
    AudioExtractor.SEGMENT_DURATION = VideoDownloader.SEGMENT_DURATION ∧
    AudioExtractor.splitSegmentCount AudioExtractor.SEGMENT_DURATION 600 = 40 ∧
    (∀ D W : Nat, 0 < W →
      D ≤ W * AudioExtractor.splitSegmentCount W D ∧
      W * AudioExtractor.splitSegmentCount W D < D + W) := by
  refine ⟨rfl, rfl, ?_⟩
  intro D W hW
  unfold AudioExtractor.splitSegmentCount
  have hdm := Nat.div_add_mod (D + W - 1) W
  have hmod : (D + W - 1) % W < W := Nat.mod_lt _ hW
  generalize hM : W * ((D + W - 1) / W) = M at hdm ⊢
  omega

namespace DownloadRoute

/-- Claim C8, counterexample: with download directory "/downloads", the
filename "/downloads-evil/a.mp3" resolves outside the artifact root yet
passes the route's `startsWith` check and is streamed instead of being
rejected with 403. -/
theorem download_prefix_escape_cex :
    downloadEndpoint "/srv" "/downloads" (fun _ => true) "/downloads-evil/a.mp3"
        = Resp.fileStream "/downloads-evil/a.mp3" ∧
    insideRoot "/downloads" "/downloads-evil/a.mp3" = false := by
  constructor
  · decide
  · rfl

/-- Spot check of the resolver against the route: a filename that climbs
out of the download directory with `..` resolves outside it and is
rejected with 403. -/
theorem downloadEndpoint_forbids_dotdot :
    pathResolve "/srv" "/downloads/../etc/passwd" = "/etc/passwd" ∧
    downloadEndpoint "/srv" "/downloads" (fun _ => true) "/downloads/../etc/passwd"
        = Resp.forbidden := by
  constructor
  · decide
  · decide

/-- Spot check of the separator test: a backslash-only filename takes the
resolve-and-check branch (it is relative, so it resolves under the working
directory and fails the prefix check). -/
theorem downloadEndpoint_backslash_branch :
    containsSep "a\\b" = true ∧
    downloadEndpoint "/srv" "/downloads" (fun _ => true) "a\\b" = Resp.forbidden := by
  constructor
  · decide
  · decide

/-- Claim C8, amended: `GET /api/download/:filename` responds 403 exactly
when the filename contains a path separator (`/` or `\\`) and its resolved
path fails the textual `startsWith` check against the resolved download
directory; resolved sibling paths that share the directory string as a
prefix are not rejected. -/
theorem download_forbidden_iff (cwd rawDir fname : String) (exs : String → Bool) :
    downloadEndpoint cwd rawDir exs fname = .forbidden ↔
      (containsSep fname = true ∧
        strStarts (pathResolve cwd fname) (pathResolve cwd rawDir) = false) := by
  unfold downloadEndpoint
  by_cases hsep : containsSep fname = true
  · rw [if_pos hsep]
    by_cases hpre : strStarts (pathResolve cwd fname) (pathResolve cwd rawDir) = true
    · rw [if_neg (by rw [hpre]; exact fun hc => hc rfl)]
      by_cases hex : exs (pathResolve cwd fname) = true
      · rw [if_neg (by rw [hex]; exact fun hc => hc rfl)]
        simp [hsep, hpre]
      · rw [if_pos (by rw [Bool.eq_false_iff.mpr hex]; exact Bool.false_ne_true)]
        simp [hsep, hpre]
    · rw [if_pos (by rw [Bool.eq_false_iff.mpr hpre]; exact Bool.false_ne_true)]
      simp [hsep, Bool.eq_false_iff.mpr hpre]
  · rw [if_neg hsep]
    by_cases hex : exs (rawDir ++ "/" ++ pathBasename fname) = true
    · rw [if_neg (by rw [hex]; exact fun hc => hc rfl)]
      simp [hsep]
    · rw [if_pos (by rw [Bool.eq_false_iff.mpr hex]; exact Bool.false_ne_true)]
      simp [hsep]

end DownloadRoute

namespace Pipeline

/-- Claim C1, counterexample: in the legacy `videoProcessor.js` pipeline,
a run whose download completes without progress callbacks writes the
progress sequence 0, 0, 100, 45, 60, 65, 95, 100 — the forced 100 at the
end of the download phase is followed by 45, so `progress` decreases. -/
theorem legacy_progress_decreases_cex :
    (processVideoLegacy oracleLegacyQuiet).writes = [0, 0, 100, 45, 60, 65, 95, 100] ∧
    ¬ (processVideoLegacy oracleLegacyQuiet).writes.Pairwise (· ≤ ·) := by
  constructor
  · rfl
  · have heq : (processVideoLegacy oracleLegacyQuiet).writes
        = [0, 0, 100, 45, 60, 65, 95, 100] := rfl
    rw [heq]
    decide

end Pipeline

namespace VideoDownloader

/-- Claim C3, amended: for every duration `D` and window count `N ≥ 1`, the
segment planner `calculateSegmentPositions` returns a list of at most `N`
windows.  (The claim's further assertion that the windows are pairwise
non-overlapping is refuted by `segmentPlanner_overlap_cex`.) -/
theorem segmentPlanner_at_most_numSegments (W N D : Nat) (hN : 1 ≤ N) :
    (calculateSegmentPositions W N D).length ≤ N := by
  unfold calculateSegmentPositions
  by_cases hD : D ≤ W
  · simp [hD]; omega
  · simp only [if_neg hD]
    rcases hres : phase1Go W N D ((List.range ((min 60 D + W - 1) / W)).map (· * W)) [] with s | s
    · have hlen := phase1Go_length_le W N D
        ((List.range ((min 60 D + W - 1) / W)).map (· * W)) [] (by simpa using hN)
      rw [hres] at hlen
      simpa [segsOf] using hlen
    · have hlen := phase1Go_length_le W N D
        ((List.range ((min 60 D + W - 1) / W)).map (· * W)) [] (by simpa using hN)
      rw [hres] at hlen
      simp only [segsOf, Sum.elim_inr, id_eq] at hlen
      exact foldlPreserve (fun s i h => evenStep_length_le W N D i s h) _ _
        (foldlPreserve (fun s fr h => spreadStep_length_le W N D fr s h) _ _ hlen)

theorem segmentPlanner_at_most_numSegments_witness :
    1 ≤ NUM_SEGMENTS ∧
    (calculateSegmentPositions SEGMENT_DURATION NUM_SEGMENTS 600).length ≤ NUM_SEGMENTS :=
  ⟨by decide, segmentPlanner_at_most_numSegments SEGMENT_DURATION NUM_SEGMENTS 600 (by decide)⟩

/-- Claim C3, counterexample: with the default window length 15 and window
count 6, a 70-second asset is planned as four dense windows covering 0-60
followed by the spread windows 10-25 and 28-43, which overlap the dense
windows (and are out of start-time order), so the planner's output is not
pairwise non-overlapping. -/
theorem segmentPlanner_overlap_cex :
    calculateSegmentPositions SEGMENT_DURATION NUM_SEGMENTS 70 =
      [⟨0, 15⟩, ⟨15, 30⟩, ⟨30, 45⟩, ⟨45, 60⟩, ⟨10, 25⟩, ⟨28, 43⟩] ∧
    ¬ (calculateSegmentPositions SEGMENT_DURATION NUM_SEGMENTS 70).Pairwise disjointWindows := by
  constructor
  · rfl
  · decide

/-- Claim C4: for every duration `D > 0` and window length `W`, each window
returned by the segment planner satisfies `0 ≤ start < end ≤ D` and
`end - start ≥ 5`, except the single-window case `D ≤ W` where the one
window is `[0, D]`. -/
theorem segmentPlanner_window_bounds (W N D : Nat) (hD : 0 < D) :
    (D ≤ W → calculateSegmentPositions W N D = [⟨0, D⟩]) ∧
    (W < D → ∀ w ∈ calculateSegmentPositions W N D, inBounds D w) := by
  constructor
  · intro hle; simp [calculateSegmentPositions, hle]
  · intro hgt
    unfold calculateSegmentPositions
    simp only [if_neg (show ¬ D ≤ W by omega)]
    rcases hres : phase1Go W N D ((List.range ((min 60 D + W - 1) / W)).map (· * W)) [] with s | s
    · have hb := phase1Go_bounds W N D
        ((List.range ((min 60 D + W - 1) / W)).map (· * W)) [] (by simp)
      rw [hres] at hb
      simpa [segsOf] using hb
    · have hb := phase1Go_bounds W N D
        ((List.range ((min 60 D + W - 1) / W)).map (· * W)) [] (by simp)
      rw [hres] at hb
      simp only [segsOf, Sum.elim_inr, id_eq] at hb
      exact foldlPreserve (fun s i h => evenStep_bounds W N D i s h) _ _
        (foldlPreserve (fun s fr h => spreadStep_bounds W N D fr s h) _ _ hb)

theorem segmentPlanner_window_bounds_witness :
    0 < 600 ∧
    ((600 ≤ SEGMENT_DURATION →
        calculateSegmentPositions SEGMENT_DURATION NUM_SEGMENTS 600 = [⟨0, 600⟩]) ∧
      (SEGMENT_DURATION < 600 →
        ∀ w ∈ calculateSegmentPositions SEGMENT_DURATION NUM_SEGMENTS 600, inBounds 600 w)) :=
  ⟨by decide, segmentPlanner_window_bounds SEGMENT_DURATION NUM_SEGMENTS 600 (by decide)⟩

end VideoDownloader

namespace Pipeline

theorem optimized_progress_monotone_witness :
    (oracleSegOk.segReports ++ oracleSegOk.fullReports).Pairwise (· ≤ ·) ∧
    (∀ p ∈ oracleSegOk.segReports ++ oracleSegOk.fullReports, p ≤ 100) ∧
    (processVideoOpt oracleSegOk).writes.Pairwise (· ≤ ·) :=
  ⟨by decide, by decide, optimized_progress_monotone oracleSegOk (by decide) (by decide)⟩

theorem fallback_switches_once_witness :
    (processVideoOpt oracleSegFail).events.count .downloadFull = 1 ∧
    (processVideoOpt oracleSegFail).events.count .downloadSegments = 1 :=
  ⟨(fallback_switches_once oracleSegFail).2.2.2 "All segments failed to download" rfl,
    (fallback_switches_once oracleSegFail).1⟩

theorem legacy_no_match_completes_witness :
    (processVideoLegacy oracleLegacyNoMatch).status = .completed ∧
    (processVideoLegacy oracleLegacyNoMatch).tracks = [] ∧
    (processVideoLegacy oracleLegacyNoMatch).tracksFound = 0 :=
  legacy_no_match_completes oracleLegacyNoMatch ⟨⟨"t", 600⟩, true⟩ 10 rfl rfl rfl rfl rfl
    (fun _ => rfl)

theorem missing_creds_empty_completed_witness :
    MusicIdentifier.identifyMusicTracksM oracleNoCreds.creds oracleNoCreds.recog 6 = ([], [], 0) ∧
    (processVideoOpt oracleNoCreds).status = .completed ∧
    (processVideoOpt oracleNoCreds).tracks = [] ∧
    (processVideoOpt oracleNoCreds).tracksFound = 0 :=
  missing_creds_empty_completed oracleNoCreds ⟨⟨"t", 600⟩, 6⟩ rfl rfl (by decide)

end Pipeline

namespace MusicIdentifier

theorem reported_range_from_index_witness :
    (Track.mk "X" "Y" 60 120 77).tsStart = 1 * SEGMENT_DURATION ∧
    (Track.mk "X" "Y" 60 120 77).tsEnd = (1 + 1) * SEGMENT_DURATION ∧
    SEGMENT_DURATION = 60 ∧
    (VideoDownloader.calculateSegmentPositions VideoDownloader.SEGMENT_DURATION
        VideoDownloader.NUM_SEGMENTS 600).head? = some ⟨0, 15⟩ ∧
    1 * SEGMENT_DURATION ≠ 15 :=
  reported_range_from_index (some ⟨"X", "Y", 77⟩) 1 ⟨"X", "Y", 60, 120, 77⟩ rfl

end MusicIdentifier

theorem splitAudio_window_count_witness :
    0 < (15 : Nat) ∧
    (600 ≤ 15 * AudioExtractor.splitSegmentCount 15 600 ∧
      15 * AudioExtractor.splitSegmentCount 15 600 < 600 + 15) :=
  ⟨by decide, splitAudio_window_count.2.2 600 15 (by decide)⟩
